import Mathlib

/-!
Verification of the `bake` task runner's shell interpreter and helpers.

The definitions below are a shallow embedding of the TypeScript sources:
- `src/shell.ts` (and its evaluator revision): lexer, parser and the
  continuation-passing evaluator for the small shell command language;
- `src/bin/bake.ts`: the task-name matcher;
- `src/util.ts`: the line-prefixing stream transform.

Strings are modelled with Lean `String`/`List Char`; the JavaScript
end-of-file sentinel `''` is modelled as `none : Option Char`; thrown
exceptions are modelled with `Except ShellError`.  Loops whose termination
is not structural carry an explicit fuel parameter; fuel exhaustion yields
an error, so every `.ok` result corresponds to a real run of the source.
-/

/-- Errors thrown by the shell front end: `LexError`, `ParseError` and the
generic `Error` thrown by the evaluator on unknown node kinds. -/
inductive ShellError where
  | lexError (message : String)
  | parseError (message : String)
  | evalError (message : String)
deriving DecidableEq, Repr

deriving instance DecidableEq for Except

/-- The `ShellTokenType` enum from `shell.ts`. -/
inductive ShellTokenType where
  | NewLine
  | Blank
  | EndOfFile
  | Identifier
  | AmpAmp
  | VBarVBar
  | Dollar
  | OpenParen
  | CloseParen
deriving DecidableEq, Repr

/-- `describeToken` from `shell.ts`, used in parse error messages. -/
def describeToken : ShellTokenType → String
  | .CloseParen => "')'"
  | .OpenParen => "'('"
  | .Blank => "some whitespace"
  | .Dollar => "'$'"
  | .AmpAmp => "'&&'"
  | .VBarVBar => "'||'"
  | .Identifier => "some text"
  | .EndOfFile => "end-of-file"
  | .NewLine => "a newline"

/-- A `ShellToken`: a type tag plus the optional payload (`value`) carried
by `Identifier` (the text) and `Dollar` (the variable name) tokens. -/
structure ShellToken where
  type : ShellTokenType
  value : Option String := none
deriving DecidableEq, Repr

/-- The `ShellLexer` state: the input `text`, the read cursor `textOffset`
and the pushback `charBuffer` filled by `peekChar`. -/
structure ShellLexer where
  text : List Char
  textOffset : Nat
  charBuffer : List Char
deriving DecidableEq, Repr

/-- `new ShellLexer(text)`. -/
def ShellLexer.init (text : List Char) : ShellLexer :=
  { text := text, textOffset := 0, charBuffer := [] }

/-- `readChar`: return the character at `textOffset` (advancing it), or the
end-of-file sentinel. -/
def readChar (s : ShellLexer) : Option Char × ShellLexer :=
  if h : s.textOffset < s.text.length then
    (some (s.text.get ⟨s.textOffset, h⟩), { s with textOffset := s.textOffset + 1 })
  else
    (none, s)

/-- `getChar`: pop the buffered character if any, else read one. -/
def getChar (s : ShellLexer) : Option Char × ShellLexer :=
  match s.charBuffer with
  | c :: rest => (some c, { s with charBuffer := rest })
  | [] => readChar s

/-- `peekChar()` with the default lookahead of one: return the next
character without consuming it, buffering it if it had to be read. -/
def peekChar (s : ShellLexer) : Option Char × ShellLexer :=
  match s.charBuffer with
  | c :: _ => (some c, s)
  | [] =>
    match readChar s with
    | (none, s') => (none, s')
    | (some c, s') => (some c, { s' with charBuffer := [c] })

/-- Render a possibly-EOF character the way the JS template literals do
(EOF is the empty string). -/
def charToText : Option Char → String
  | none => ""
  | some c => c.toString

/-- `expectChar`: demand a specific next character, consuming it. -/
def expectChar (expected : Char) (s : ShellLexer) : Except ShellError ShellLexer :=
  match peekChar s with
  | (actual, s') =>
    if actual = some expected then
      .ok (getChar s').2
    else
      .error (.lexError ("Expected character '" ++ expected.toString ++ "' but got '" ++ charToText actual ++ "'"))

/-- The character class `/[\t\r ]/` used for blanks. -/
def isBlankChar (c : Char) : Bool :=
  c = '\t' || c = '\r' || c = ' '

/-- The character class `/[a-z_]/i` for the first character of a variable
name. -/
def isVarStart (c : Char) : Bool :=
  ('a' ≤ c && c ≤ 'z') || ('A' ≤ c && c ≤ 'Z') || c = '_'

/-- The character class `/[a-z0-9]/i` for subsequent variable-name
characters. -/
def isVarPart (c : Char) : Bool :=
  ('a' ≤ c && c ≤ 'z') || ('A' ≤ c && c ≤ 'Z') || ('0' ≤ c && c ≤ '9')

/-- The single-quote character, written by code to keep the source free of
character-literal quoting issues. -/
def singleQuoteChar : Char := Char.ofNat 39

/-- The double-quote character. -/
def doubleQuoteChar : Char := Char.ofNat 34

/-- The delimiter class `/[$\t\r\n&| '"]/` that terminates an identifier
run. -/
def isIdentDelim (c : Char) : Bool :=
  c = '$' || c = '\t' || c = '\r' || c = '\n' || c = '&' || c = '|' || c = ' '
    || c = singleQuoteChar || c = doubleQuoteChar

/-- The JS global `unescape` applied to a single character: percent-decoding
is the identity on any one-character string. -/
def unescapeChar (c : Char) : Char := c

/-- The inner loop of the `Dollar` branch of `lex`: accumulate variable-name
characters.  The fuel bounds the number of iterations; callers always pass
enough for the remaining input. -/
def lexDollarRest : Nat → String → ShellLexer → String × ShellLexer
  | 0, acc, s => (acc, s)
  | fuel + 1, acc, s =>
    match peekChar s with
    | (none, s') => (acc, s')
    | (some c2, s') =>
      if isVarPart c2 then
        lexDollarRest fuel (acc.push c2) (getChar s').2
      else
        (acc, s')

/-- The trailing loop of the identifier branch of `lex`: accumulate
characters until EOF or a delimiter. -/
def lexIdentRest : Nat → String → ShellLexer → String × ShellLexer
  | 0, acc, s => (acc, s)
  | fuel + 1, acc, s =>
    match peekChar s with
    | (none, s') => (acc, s')
    | (some c1, s') =>
      if isIdentDelim c1 then
        (acc, s')
      else
        lexIdentRest fuel (acc.push c1) (getChar s').2

/-- The body of `ShellLexer.lex`, one fuel unit per iteration of its outer
`for (;;)` loop (each continuing iteration consumes a character). -/
def lexLoop : Nat → Bool → Bool → ShellLexer → Except ShellError (ShellToken × ShellLexer)
  | 0, _, _, _ => .error (.lexError "lexer fuel exhausted")
  | fuel + 1, escaping, afterBlank, s =>
    match peekChar s with
    | (none, s1) =>
      if escaping then
        .error (.lexError "Reached end-of-file while trying to escape a character with '\\'")
      else
        .ok ({ type := .EndOfFile }, s1)
    | (some ch, s1) =>
      if ch = '\\' then
        lexLoop fuel true afterBlank (getChar s1).2
      else if isBlankChar ch || (ch = '\n' && escaping) then
        lexLoop fuel escaping true (getChar s1).2
      else if ch = '\n' then
        .ok ({ type := .NewLine }, (getChar s1).2)
      else if afterBlank then
        .ok ({ type := .Blank }, s1)
      else if !escaping && ch = '$' then
        let s2 := (getChar s1).2
        match peekChar s2 with
        | (none, _) =>
          .error (.lexError "Expected '_' or a letter for a variable name but got ''")
        | (some c1, s3) =>
          if !isVarStart c1 then
            .error (.lexError ("Expected '_' or a letter for a variable name but got '" ++ c1.toString ++ "'"))
          else
            let s4 := (getChar s3).2
            let r := lexDollarRest fuel c1.toString s4
            .ok ({ type := .Dollar, value := some r.1 }, r.2)
      else if ch = '&' then
        match expectChar '&' (getChar s1).2 with
        | .error e => .error e
        | .ok s2 => .ok ({ type := .AmpAmp }, s2)
      else if ch = '|' then
        match expectChar '|' (getChar s1).2 with
        | .error e => .error e
        | .ok s2 => .ok ({ type := .VBarVBar }, s2)
      else
        let text1 : String := if escaping then (unescapeChar ch).toString else ""
        let s2 := (getChar s1).2
        let text2 := text1.push ch
        let r := lexIdentRest fuel text2 s2
        .ok ({ type := .Identifier, value := some r.1 }, r.2)

/-- Fuel sufficient for one `lex()` call: the unread input plus one. -/
def lexFuel (s : ShellLexer) : Nat :=
  s.text.length - s.textOffset + s.charBuffer.length + 1

/-- `ShellLexer.lex()`: produce the next token (or a `LexError`). -/
def lex (s : ShellLexer) : Except ShellError (ShellToken × ShellLexer) :=
  lexLoop (lexFuel s) false false s

/-- Elements of a `TemplateStringShellExpr` (`RefShellExpr | TextShellExpr`). -/
inductive TemplateStringShellExprElement where
  | textExpr (text : String)
  | refExpr (name : String)
deriving DecidableEq, Repr

/-- The `ShellExpr` union: `TextExpr`, `RefExpr`, `StringExpr` and
`TemplateStringExpr` nodes. -/
inductive ShellExpr where
  | textExpr (text : String)
  | refExpr (name : String)
  | stringExpr (text : String)
  | templateStringExpr (elements : List TemplateStringShellExprElement)
deriving DecidableEq, Repr

/-- The `ShellCommand` union: `SpawnCommand` (over a list of `ShellArg`s,
each an expression list), `AndCommand`, `OrCommand` and `NotCommand`. -/
inductive ShellCommand where
  | spawnCommand (args : List (List ShellExpr))
  | andCommand (left right : ShellCommand)
  | orCommand (left right : ShellCommand)
  | notCommand (command : ShellCommand)
deriving DecidableEq, Repr

/-- The `ShellParser` state: its FIFO `tokenBuffer` plus the lexer it pulls
from. -/
structure ShellParserState where
  tokenBuffer : List ShellToken
  lexer : ShellLexer
deriving DecidableEq, Repr

/-- `new ShellParser(new ShellLexer(input))`. -/
def ShellParserState.init (input : List Char) : ShellParserState :=
  { tokenBuffer := [], lexer := ShellLexer.init input }

/-- `getToken`: pop the buffered token if any, else pull one from the
lexer. -/
def getToken (s : ShellParserState) : Except ShellError (ShellToken × ShellParserState) :=
  match s.tokenBuffer with
  | t :: rest => .ok (t, { s with tokenBuffer := rest })
  | [] =>
    match lex s.lexer with
    | .error e => .error e
    | .ok (t, l) => .ok (t, { s with lexer := l })

/-- `peekToken()` with the default lookahead of one. -/
def peekToken (s : ShellParserState) : Except ShellError (ShellToken × ShellParserState) :=
  match s.tokenBuffer with
  | t :: _ => .ok (t, s)
  | [] =>
    match lex s.lexer with
    | .error e => .error e
    | .ok (t, l) => .ok (t, { tokenBuffer := [t], lexer := l })

/-- `expectToken`: consume a token and demand a specific type. -/
def expectToken (expectedType : ShellTokenType) (s : ShellParserState) :
    Except ShellError ShellParserState :=
  match getToken s with
  | .error e => .error e
  | .ok (t, s') =>
    if t.type = expectedType then
      .ok s'
    else
      .error (.parseError ("Expected " ++ describeToken expectedType ++ " but got " ++ describeToken t.type))

/-- `parseExpr`: a `Dollar` token becomes a `RefExpr`, an `Identifier`
becomes a `TextExpr`, anything else is a `ParseError`.  (Lexer-produced
tokens of these kinds always carry a value; a missing one is defaulted.) -/
def parseExpr (s : ShellParserState) : Except ShellError (ShellExpr × ShellParserState) :=
  match getToken s with
  | .error e => .error e
  | .ok (t0, s') =>
    if t0.type = .Dollar then
      .ok (.refExpr (t0.value.getD ""), s')
    else if t0.type = .Identifier then
      .ok (.textExpr (t0.value.getD ""), s')
    else
      .error (.parseError ("Did not expect " ++ describeToken t0.type))

/-- `getPrecedence`: both binary operators sit at level 1.  (The source
throws on other token types; all call sites are guarded by
`isBinaryOperator`.) -/
def getPrecedence : ShellTokenType → Nat
  | .VBarVBar => 1
  | .AmpAmp => 1
  | _ => 0

/-- `isBinaryOperator`. -/
def isBinaryOperator (tokenType : ShellTokenType) : Bool :=
  tokenType = .VBarVBar || tokenType = .AmpAmp

/-- `isRightAssoc`: always false. -/
def isRightAssoc (_tokenType : ShellTokenType) : Bool :=
  false

/-- Build the binary node selected by `operatorToExprType` (`AmpAmp` gives
`AndCommand`, `VBarVBar` gives `OrCommand`; other types throw in the source
and are guarded by `isBinaryOperator` at every call site). -/
def mkBinaryCommand (tokenType : ShellTokenType) (left right : ShellCommand) : ShellCommand :=
  if tokenType = .AmpAmp then
    .andCommand left right
  else
    .orCommand left right

/-- The loop of `parseArg`: collect adjacent expressions until a binary
operator, `Blank`, `CloseParen`, `NewLine` or `EndOfFile`. -/
def parseArgLoop : Nat → List ShellExpr → ShellParserState →
    Except ShellError (List ShellExpr × ShellParserState)
  | 0, _, _ => .error (.parseError "parser fuel exhausted")
  | fuel + 1, elements, s =>
    match peekToken s with
    | .error e => .error e
    | .ok (t0, s') =>
      if isBinaryOperator t0.type || t0.type = .Blank || t0.type = .CloseParen
          || t0.type = .NewLine || t0.type = .EndOfFile then
        .ok (elements, s')
      else
        match parseExpr s' with
        | .error e => .error e
        | .ok (e, s'') => parseArgLoop fuel (elements ++ [e]) s''

/-- `parseArg`. -/
def parseArg (fuel : Nat) (s : ShellParserState) :
    Except ShellError (List ShellExpr × ShellParserState) :=
  parseArgLoop fuel [] s

/-- The loop of `parseCommandPrimitive`: collect blank-separated `Arg`s into
a `SpawnCommand`.  The second stop test re-checks the stale `t0` (as the
source does) alongside the fresh `t1`. -/
def parseCommandPrimitiveLoop : Nat → List (List ShellExpr) → ShellParserState →
    Except ShellError (ShellCommand × ShellParserState)
  | 0, _, _ => .error (.parseError "parser fuel exhausted")
  | fuel + 1, args, s =>
    match peekToken s with
    | .error e => .error e
    | .ok (t0, s') =>
      if isBinaryOperator t0.type || t0.type = .EndOfFile || t0.type = .NewLine
          || t0.type = .CloseParen then
        .ok (.spawnCommand args, s')
      else
        match parseArg fuel s' with
        | .error e => .error e
        | .ok (arg, s2) =>
          let args' := args ++ [arg]
          match peekToken s2 with
          | .error e => .error e
          | .ok (t1, s3) =>
            if isBinaryOperator t0.type || t1.type = .EndOfFile || t1.type = .NewLine
                || t1.type = .CloseParen then
              .ok (.spawnCommand args', s3)
            else
              match expectToken .Blank s3 with
              | .error e => .error e
              | .ok s4 => parseCommandPrimitiveLoop fuel args' s4

/-- `parseCommandPrimitive`. -/
def parseCommandPrimitive (fuel : Nat) (s : ShellParserState) :
    Except ShellError (ShellCommand × ShellParserState) :=
  parseCommandPrimitiveLoop fuel [] s

mutual

/-- `parseCommandOperators`: the outer precedence-climbing loop, one fuel
unit per iteration/recursive step. -/
def parseCommandOperators : Nat → ShellCommand → Nat → ShellParserState →
    Except ShellError (ShellCommand × ShellParserState)
  | 0, _, _, _ => .error (.parseError "parser fuel exhausted")
  | fuel + 1, lhs, minPrecedence, s =>
    match peekToken s with
    | .error e => .error e
    | .ok (lookahead, s1) =>
      if !isBinaryOperator lookahead.type then
        .ok (lhs, s1)
      else
        let fixedPrecedence := getPrecedence lookahead.type
        if fixedPrecedence < minPrecedence then
          .ok (lhs, s1)
        else
          match getToken s1 with
          | .error e => .error e
          | .ok (_, s2) =>
            match peekToken s2 with
            | .error e => .error e
            | .ok (tb, s3) =>
              let afterBlank : Except ShellError ShellParserState :=
                if tb.type = .Blank then
                  match getToken s3 with
                  | .error e => Except.error e
                  | .ok (_, s4) => Except.ok s4
                else
                  Except.ok s3
              match afterBlank with
              | .error e => .error e
              | .ok s5 =>
                match parseCommandPrimitive fuel s5 with
                | .error e => .error e
                | .ok (rhs, s6) =>
                  match parseCommandInnerLoop fuel rhs fixedPrecedence s6 with
                  | .error e => .error e
                  | .ok (rhs', s7) =>
                    parseCommandOperators fuel
                      (mkBinaryCommand lookahead.type lhs rhs') minPrecedence s7

/-- The nested lookahead loop of `parseCommandOperators` (with equal
precedences and no right-associative operators its body never runs, but it
is embedded faithfully). -/
def parseCommandInnerLoop : Nat → ShellCommand → Nat → ShellParserState →
    Except ShellError (ShellCommand × ShellParserState)
  | 0, _, _, _ => .error (.parseError "parser fuel exhausted")
  | fuel + 1, rhs, fixedPrecedence, s =>
    match peekToken s with
    | .error e => .error e
    | .ok (lookahead, s1) =>
      if !isBinaryOperator lookahead.type then
        .ok (rhs, s1)
      else
        let lookaheadPrecedence := getPrecedence lookahead.type
        if lookaheadPrecedence < fixedPrecedence
            || (lookaheadPrecedence = fixedPrecedence && !isRightAssoc lookahead.type) then
          .ok (rhs, s1)
        else
          match parseCommandOperators fuel rhs lookaheadPrecedence s1 with
          | .error e => .error e
          | .ok (rhs', s2) => parseCommandInnerLoop fuel rhs' fixedPrecedence s2

end

/-- `parseCommandInternal`. -/
def parseCommandInternal (fuel : Nat) (s : ShellParserState) :
    Except ShellError (ShellCommand × ShellParserState) :=
  match parseCommandPrimitive fuel s with
  | .error e => .error e
  | .ok (c, s') => parseCommandOperators fuel c 0 s'

/-- `parseCommand`: parse a full command and require `EndOfFile`. -/
def parseCommand (fuel : Nat) (s : ShellParserState) :
    Except ShellError (ShellCommand × ShellParserState) :=
  match parseCommandInternal fuel s with
  | .error e => .error e
  | .ok (c, s') =>
    match expectToken .EndOfFile s' with
    | .error e => .error e
    | .ok s'' => .ok (c, s'')

/-- Fuel sufficient for parsing a given input (every loop iteration of
every parser function consumes at least one token, and there are at most
`length + 1` tokens). -/
def parseFuel (input : String) : Nat :=
  input.length + 2

/-- `parseShellCommand`. -/
def parseShellCommand (input : String) : Except ShellError ShellCommand :=
  match parseCommand (parseFuel input) (ShellParserState.init input.data) with
  | .error e => .error e
  | .ok (c, _) => .ok c

/-- `ProcessEnvironment`: a partial map from variable names to values. -/
abbrev ProcessEnvironment := String → Option String

/-- The spawn collaborator: the resolved value of `spawnInternal`'s promise,
`number | null`.  (The session's `cwd`/`env` options are fixed for a whole
evaluation and therefore omitted from the oracle's arguments.) -/
abbrev SpawnFn := List String → Option Int

/-- The continuation a builtin eventually invokes with its code: `next`
(continue sequencing) or `exit` (abort the whole evaluation).  The only
shipped builtin (`exit`) behaves this way. -/
inductive BuiltinOutcome where
  | next (exitCode : Int)
  | exit (exitCode : Int)
deriving DecidableEq, Repr

/-- The builtin table: command name to handler. -/
abbrev ShellBuiltins := String → Option (List String → BuiltinOutcome)

/-- JS `String.prototype.split` with a single-character separator, on
character lists: split at every occurrence of the separator, keeping empty
pieces (so the empty string yields one empty piece). -/
def splitOnChar (sep : Char) : List Char → List (List Char)
  | [] => [[]]
  | c :: cs =>
    let r := splitOnChar sep cs
    if c = sep then
      [] :: r
    else
      match r with
      | [] => [[c]]
      | piece :: pieces => (c :: piece) :: pieces

/-- JS `str.split(sep)` for a one-character separator, producing strings. -/
def jsSplit (s : String) (sep : Char) : List String :=
  (splitOnChar sep s.data).map fun cs => String.mk cs

/-- JS `Array.prototype.flatten`. -/
def jsJoin (sep : String) : List String → String
  | [] => ""
  | [x] => x
  | x :: y :: xs => x ++ sep ++ jsJoin sep (y :: xs)

/-- `shouldHoist`: every expression except string literals and template
strings is split on spaces after expansion. -/
def shouldHoist : ShellExpr → Bool
  | .stringExpr _ => false
  | .templateStringExpr _ => false
  | _ => true

/-- The `TextExpr`/`RefExpr` cases of `evalShellExpr`, as invoked
recursively on the elements of a template string. -/
def evalTemplateElement (env : ProcessEnvironment) : TemplateStringShellExprElement → String
  | .textExpr text => text
  | .refExpr name => (env name).getD ""

/-- `ShellEvaluator.evalShellExpr`: literal text evaluates to itself, a
variable reference to its value (empty if undefined), a template string to
the left-to-right concatenation of its elements; `StringExpr` hits the
`default` case and throws. -/
def evalShellExpr (env : ProcessEnvironment) : ShellExpr → Except ShellError String
  | .textExpr text => .ok text
  | .refExpr name => .ok ((env name).getD "")
  | .templateStringExpr elements =>
    .ok (elements.foldl (fun out element => out ++ evalTemplateElement env element) "")
  | .stringExpr _ => .error (.evalError "Could not evaluate shell expression: unknown node type")

/-- The inner argv-population loop of the `SpawnCommand` case: expand each
expression of one `Arg`, splitting hoistable results on spaces. -/
def buildArgvExprs (env : ProcessEnvironment) :
    List String → List ShellExpr → Except ShellError (List String)
  | argv, [] => .ok argv
  | argv, expr :: rest =>
    match evalShellExpr env expr with
    | .error e => .error e
    | .ok result =>
      if shouldHoist expr then
        buildArgvExprs env (argv ++ jsSplit result ' ') rest
      else
        buildArgvExprs env (argv ++ [result]) rest

/-- The outer argv-population loop over the command's `Arg`s. -/
def buildArgvLoop (env : ProcessEnvironment) :
    List String → List (List ShellExpr) → Except ShellError (List String)
  | argv, [] => .ok argv
  | argv, arg :: rest =>
    match buildArgvExprs env argv arg with
    | .error e => .error e
    | .ok argv' => buildArgvLoop env argv' rest

/-- The full argv computed by the `SpawnCommand` case of `eval`. -/
def buildArgv (env : ProcessEnvironment) (args : List (List ShellExpr)) :
    Except ShellError (List String) :=
  buildArgvLoop env [] args

/-- The key used for the builtin lookup `this.builtins[argv[0]]`: indexing
past the end of a JS array yields `undefined`, which stringifies to the
property key `"undefined"`. -/
def argvHead (argv : List String) : String :=
  argv.headD "undefined"

/-- `ShellEvaluator.spawn`'s normalization: a `null` exit code becomes 1. -/
def normalizeExitCode : Option Int → Int
  | none => 1
  | some code => code

/-- A trace of the external processes spawned during an evaluation, in
order; `visit` threads it so that what was (and was not) spawned is
observable. -/
abbrev SpawnLog := List (List String)

/-- The `visit` closure inside `ShellEvaluator.eval`, in continuation-passing
style over an arbitrary answer type: `next` continues sequencing with an
exit code, `exitK` terminates the whole evaluation.  A `NotCommand` hits
the `default` case and throws. -/
def visit {α : Type} (spawnF : SpawnFn) (builtins : ShellBuiltins) (env : ProcessEnvironment) :
    ShellCommand → (Int → SpawnLog → Except ShellError α) →
    (Int → SpawnLog → Except ShellError α) → SpawnLog → Except ShellError α
  | .spawnCommand args, next, exitK, log =>
    match buildArgv env args with
    | .error e => .error e
    | .ok argv =>
      match builtins (argvHead argv) with
      | some builtin =>
        match builtin argv with
        | .next code => next code log
        | .exit code => exitK code log
      | none => next (normalizeExitCode (spawnF argv)) (log ++ [argv])
  | .andCommand left right, next, exitK, log =>
    visit spawnF builtins env left
      (fun exitCode log' =>
        if exitCode ≠ 0 then
          exitK exitCode log'
        else
          visit spawnF builtins env right next exitK log')
      exitK log
  | .orCommand left right, next, exitK, log =>
    visit spawnF builtins env left
      (fun exitCode log' =>
        if exitCode = 0 then
          exitK 0 log'
        else
          visit spawnF builtins env right next exitK log')
      exitK log
  | .notCommand _, _, _, _ =>
    .error (.evalError "Could not evaluate shell command: unknown node")
termination_by structural command => command

/-- Which top-level continuation a command's evaluation eventually invokes,
with which code, and the spawn trace at that point. -/
inductive ContinuationResult where
  | next (exitCode : Int) (log : SpawnLog)
  | exit (exitCode : Int) (log : SpawnLog)
deriving DecidableEq, Repr

/-- `visit` applied to the identity continuations: records which of
`next`/`exit` the command invokes. -/
def kvisit (spawnF : SpawnFn) (builtins : ShellBuiltins) (env : ProcessEnvironment)
    (command : ShellCommand) (log : SpawnLog) : Except ShellError ContinuationResult :=
  visit spawnF builtins env command
    (fun code log' => .ok (.next code log'))
    (fun code log' => .ok (.exit code log')) log

/-- `ShellEvaluator.eval` on an already-parsed command: both continuations
resolve the promise, so the first one reached produces the result. -/
def evalVisit (spawnF : SpawnFn) (builtins : ShellBuiltins) (env : ProcessEnvironment)
    (command : ShellCommand) : Except ShellError (Int × SpawnLog) :=
  visit spawnF builtins env command
    (fun code log => .ok (code, log))
    (fun code log => .ok (code, log)) []

/-- The Lean model of JS `Number(...)` on the argument of the `exit`
builtin, used only to mirror its NaN fallback. -/
def toNumber (s : String) : Option Int :=
  s.toInt?

/-- The `exit` entry of `DEFAULT_BUILTINS`: exit with the numeric value of
its first argument-array entry, defaulting to 0 when absent or
non-numeric. -/
def exitBuiltin (argv : List String) : BuiltinOutcome :=
  match argv.head? with
  | none => .exit 0
  | some exitCodeStr => .exit ((toNumber exitCodeStr).getD 0)

/-- `DEFAULT_BUILTINS`. -/
def defaultBuiltins : ShellBuiltins :=
  fun name => if name = "exit" then some exitBuiltin else none

/-- The builtin table assembled by `evalShellCommand`:
`{ ...DEFAULT_BUILTINS, ...extraBuiltins }` unless defaults are
suppressed. -/
def mergeBuiltins (extraBuiltins : ShellBuiltins) (noDefaultBuiltins : Bool) : ShellBuiltins :=
  fun name =>
    match extraBuiltins name with
    | some f => some f
    | none => if noDefaultBuiltins then none else defaultBuiltins name

/-- `evalShellCommand` on command text: parse, then evaluate with the
assembled builtin table. -/
def evalShellCommand (command : String) (spawnF : SpawnFn) (extraBuiltins : ShellBuiltins)
    (noDefaultBuiltins : Bool) (env : ProcessEnvironment) :
    Except ShellError (Int × SpawnLog) :=
  match parseShellCommand command with
  | .error e => .error e
  | .ok c => evalVisit spawnF (mergeBuiltins extraBuiltins noDefaultBuiltins) env c

/-- An empty extra-builtin table. -/
def noExtraBuiltins : ShellBuiltins := fun _ => none

/-- Items of a glob character class, each an inclusive character range
(single characters are degenerate ranges), plus the pattern text after the
closing bracket. -/
def classItems : List Char → Option (List (Char × Char) × List Char)
  | [] => none
  | ']' :: rest => some ([], rest)
  | c :: '-' :: b :: rest' =>
    if b = ']' then
      some ([(c, c), ('-', '-')], rest')
    else
      (classItems rest').map fun p => ((c, b) :: p.1, p.2)
  | c :: rest => (classItems rest).map fun p => ((c, c) :: p.1, p.2)

/-- Membership of a character in a (possibly negated) class. -/
def charInClass (negated : Bool) (items : List (Char × Char)) (c : Char) : Bool :=
  let mem := items.any fun i => i.1 ≤ c && c ≤ i.2
  if negated then !mem else mem

/-- Modelled from the spec: the external `Minimatch` collaborator is not
part of this repository; per the spec it performs shell-glob matching with
`*` (any sequence), `?` (any single character) and `[...]` character
classes (with ranges and `^`/`!` negation); all other characters match
literally.  `globMatch pattern str` decides the match. -/
def globMatchFuel : Nat → List Char → List Char → Bool
  | 0, _, _ => false
  | _ + 1, [], [] => true
  | _ + 1, [], _ :: _ => false
  | fuel + 1, '*' :: ps, [] => globMatchFuel fuel ps []
  | fuel + 1, '*' :: ps, c :: ss' =>
    globMatchFuel fuel ps (c :: ss') || globMatchFuel fuel ('*' :: ps) ss'
  | fuel + 1, '?' :: ps, _ :: ss' => globMatchFuel fuel ps ss'
  | fuel + 1, '[' :: ps, c :: ss' =>
    (match (match ps with
            | '^' :: t => (true, t)
            | '!' :: t => (true, t)
            | _ => (false, ps)) with
     | (negated, body) =>
       match classItems body with
       | some (items, rest) => charInClass negated items c && globMatchFuel fuel rest ss'
       | none => decide ('[' = c) && globMatchFuel fuel ps ss')
  | fuel + 1, p :: ps, c :: ss' => decide (p = c) && globMatchFuel fuel ps ss'
  | _ + 1, _ :: _, [] => false

/-- `globMatch pattern str`: the fuel (every recursive step shortens the
pattern or the string) is sized so that it can never run out. -/
def globMatch (ps ss : List Char) : Bool :=
  globMatchFuel (ps.length + ss.length + 1) ps ss

/-- `Minimatch(str, pattern)` as called by `matchTaskName`. -/
def minimatch (str : String) (pattern : String) : Bool :=
  globMatch pattern.data str.data

/-- `countChars` from `bin/bake.ts`. -/
def countChars (str : List Char) (needle : Char) : Nat :=
  str.foldl (fun count ch => if ch = needle then count + 1 else count) 0

/-- `matchTaskName` from `bin/bake.ts`: an empty filter list matches every
name; otherwise a name matches if, for some pattern with `k` colons, the
prefix formed by the name's first `k+1` colon-separated segments matches
the pattern. -/
def matchTaskName (taskName : String) (expected : List String) : Bool :=
  match expected with
  | [] => true
  | _ =>
    expected.any fun pattern =>
      let k := countChars pattern.data ':'
      let taskNamePart := jsJoin ":" ((jsSplit taskName ':').take (k + 1))
      minimatch taskNamePart pattern

/-- `isNewLine` from `util.ts`. -/
def isNewLine (ch : Char) : Bool :=
  ch = '\n'

/-- `PrefixTransformStream._transform` on one chunk: given the label `pre`
and the stream's `atBlankLine` state, produce the pushed output and the
updated state. -/
def prefixTransform (pre : List Char) : Bool → List Char → List Char × Bool
  | atBlankLine, [] => ([], atBlankLine)
  | atBlankLine, ch :: rest =>
    let r := prefixTransform pre (isNewLine ch) rest
    ((if atBlankLine then pre else []) ++ ch :: r.1, r.2)

/-- Feeding a stream a sequence of chunks: `_transform` is called once per
chunk, with `atBlankLine` carried across calls. -/
def transformChunks (pre : List Char) : Bool → List (List Char) → List Char × Bool
  | atBlankLine, [] => ([], atBlankLine)
  | atBlankLine, chunk :: rest =>
    let r := prefixTransform pre atBlankLine chunk
    let r2 := transformChunks pre r.2 rest
    (r.1 ++ r2.1, r2.2)

/-- Spec-side description of a character stream as lines: split after every
newline character, so each piece is nonempty, every piece but possibly the
last ends with a newline, and the pieces concatenate back to the input. -/
def splitAfterNewline : List Char → List (List Char)
  | [] => []
  | c :: cs =>
    if isNewLine c then
      [c] :: splitAfterNewline cs
    else
      match splitAfterNewline cs with
      | [] => [[c]]
      | l :: ls => (c :: l) :: ls

/-- Expressions of the kinds the parser can emit: `TextExpr` and `RefExpr`
only. -/
def isBasicExpr : ShellExpr → Bool
  | .textExpr _ => true
  | .refExpr _ => true
  | .stringExpr _ => false
  | .templateStringExpr _ => false

/-- Commands built only from `SpawnCommand`, `AndCommand` and `OrCommand`
nodes whose leaves are `TextExpr`/`RefExpr` — no `StringExpr`,
`TemplateStringExpr` or `NotCommand` anywhere. -/
def isBasicCommand : ShellCommand → Bool
  | .spawnCommand args => args.all fun arg => arg.all isBasicExpr
  | .andCommand left right => isBasicCommand left && isBasicCommand right
  | .orCommand left right => isBasicCommand left && isBasicCommand right
  | .notCommand _ => false

/-- C4: the parser treats `&&` and `||` as left-associative binary
operators of equal precedence: `"a && b || c && d"` parses as the AST
`AndCommand(OrCommand(AndCommand(a, b), c), d)`, i.e. the grouping
`((a && b) || c) && d`, verified on the AST shape. -/
theorem parseShellCommand_equal_precedence_left_assoc :
    parseShellCommand "a && b || c && d" =
      .ok (.andCommand
        (.orCommand
          (.andCommand
            (.spawnCommand [[.textExpr "a"]])
            (.spawnCommand [[.textExpr "b"]]))
          (.spawnCommand [[.textExpr "c"]]))
        (.spawnCommand [[.textExpr "d"]])) := rfl

/-- C6 (failing input): the claim says a backslash-escaped delimiter is
included verbatim, exactly once, at the start of an Identifier token, so
that lexing `"\&"` yields an Identifier containing `"&"`.  The code
instead: (1) on `"\&"` the `'&'` branch ignores the escaping flag, demands
a second `'&'` and throws a LexError; (2) on `"\$"`, which does reach the
identifier branch, the escaped character is appended twice (once as
`unescape(ch)` and once as `ch`), giving the Identifier `"$$"`. -/
theorem lex_escaped_delimiter_behavior :
    lex (ShellLexer.init "\\&".data) =
      .error (.lexError "Expected character '&' but got ''") ∧
    lex (ShellLexer.init "\\$".data) =
      .ok ({ type := .Identifier, value := some "$$" },
           { text := "\\$".data, textOffset := 2, charBuffer := [] }) :=
  ⟨rfl, rfl⟩

/-- C2 (counterexample): expanding the Arg `[Ref "HOME", Text "/my-app"]`
with `HOME="/home/sam"` does not produce the single argv entry
`"/home/sam/my-app"`: the evaluator pushes each expression's expansion
separately, yielding the two entries `"/home/sam"` and `"/my-app"`. -/
theorem arg_single_entry_counterexample :
    buildArgv (fun name => if name = "HOME" then some "/home/sam" else none)
      [[.refExpr "HOME", .textExpr "/my-app"]] = .ok ["/home/sam", "/my-app"] ∧
    buildArgv (fun name => if name = "HOME" then some "/home/sam" else none)
      [[.refExpr "HOME", .textExpr "/my-app"]] ≠ .ok ["/home/sam/my-app"] :=
  ⟨rfl, by decide⟩

/-- C2 (amended): expanding the Arg `[Ref "HOME", Text "/my-app"]` under
any environment with `HOME="/home/sam"` produces exactly two argv entries,
`"/home/sam"` and `"/my-app"`, in order: the expansions of the expressions
within one Arg are each appended to argv separately (with hoist-splitting),
not concatenated into a single entry. -/
theorem arg_expansion_separate_entries (env : ProcessEnvironment)
    (h : env "HOME" = some "/home/sam") :
    buildArgv env [[.refExpr "HOME", .textExpr "/my-app"]] =
      .ok ["/home/sam", "/my-app"] := by
  simp [buildArgv, buildArgvLoop, buildArgvExprs, evalShellExpr, h, shouldHoist,
    jsSplit, splitOnChar]

theorem arg_expansion_separate_entries_witness :
    buildArgv (fun name => if name = "HOME" then some "/home/sam" else none)
      [[.refExpr "HOME", .textExpr "/my-app"]] = .ok ["/home/sam", "/my-app"] :=
  arg_expansion_separate_entries _ rfl

/-- C9: a hoistable expression that expands to the empty string still
contributes exactly one (empty) argv entry, because splitting `""` on a
space yields one empty chunk: an Arg holding a single `RefExpr` to an
undefined variable (or an empty `TextExpr`) appends exactly `""` to the
accumulated argv, and a `SpawnCommand` made of such an Arg hands the spawn
collaborator the argv `[""]`. -/
theorem hoistable_empty_expansion_entry :
    (∀ (env : ProcessEnvironment) (name : String) (argv : List String),
      env name = none →
        buildArgvExprs env argv [.refExpr name] = .ok (argv ++ [""])) ∧
    (∀ (env : ProcessEnvironment) (argv : List String),
      buildArgvExprs env argv [.textExpr ""] = .ok (argv ++ [""])) ∧
    (∀ (env : ProcessEnvironment) (name : String) (sp : SpawnFn),
      env name = none →
        kvisit sp (mergeBuiltins noExtraBuiltins false) env
          (.spawnCommand [[.refExpr name]]) [] =
          .ok (.next (normalizeExitCode (sp [""])) [[""]])) := by
  refine ⟨?_, ?_, ?_⟩
  · intro env name argv h
    simp [buildArgvExprs, evalShellExpr, h, shouldHoist, jsSplit, splitOnChar]
  · intro env argv
    simp [buildArgvExprs, evalShellExpr, shouldHoist, jsSplit, splitOnChar]
  · intro env name sp h
    simp [kvisit, visit, buildArgv, buildArgvLoop, buildArgvExprs, evalShellExpr, h,
      shouldHoist, jsSplit, splitOnChar, argvHead, mergeBuiltins, noExtraBuiltins,
      defaultBuiltins]

theorem hoistable_empty_expansion_entry_witness :
    ((fun _ => none : ProcessEnvironment) "UNDEFINED" = none) ∧
    kvisit (fun _ => some 0) (mergeBuiltins noExtraBuiltins false) (fun _ => none)
      (.spawnCommand [[.refExpr "UNDEFINED"]]) [] =
      .ok (.next (normalizeExitCode ((fun _ => some 0 : SpawnFn) [""])) [[""]]) :=
  ⟨rfl, hoistable_empty_expansion_entry.2.2 (fun _ => none) "UNDEFINED" (fun _ => some 0) rfl⟩

/-- C5: `matchTaskName` accepts every name when the pattern list is empty;
for a non-empty list it accepts exactly when some pattern, with `k` colons,
glob-matches the prefix formed by the name's first `k+1` colon-delimited
segments; in particular `"watch:tests"` matches `["watch"]`, `"rewatch"`
does not match `["watch"]`, `"watch:sources"` does not match
`["watch:test*"]`, and `"watch:tests"` matches `["watch:test*"]`. -/
theorem matchTaskName_spec :
    (∀ name : String, matchTaskName name [] = true) ∧
    (∀ (name : String) (patterns : List String), patterns ≠ [] →
      (matchTaskName name patterns = true ↔
        ∃ p ∈ patterns,
          minimatch (jsJoin ":" ((jsSplit name ':').take (countChars p.data ':' + 1)))
            p = true)) ∧
    matchTaskName "watch:tests" ["watch"] = true ∧
    matchTaskName "rewatch" ["watch"] = false ∧
    matchTaskName "watch:sources" ["watch:test*"] = false ∧
    matchTaskName "watch:tests" ["watch:test*"] = true := by
  refine ⟨fun _ => rfl, ?_, rfl, rfl, rfl, rfl⟩
  intro name patterns hne
  match patterns, hne with
  | p :: ps, _ =>
    simp [matchTaskName, List.any_eq_true]

theorem matchTaskName_spec_witness :
    (["watch"] : List String) ≠ [] ∧
    (matchTaskName "watch:tests" ["watch"] = true ↔
      ∃ p ∈ (["watch"] : List String),
        minimatch (jsJoin ":" ((jsSplit "watch:tests" ':').take (countChars p.data ':' + 1)))
          p = true) :=
  ⟨by decide, matchTaskName_spec.2.1 "watch:tests" ["watch"] (by decide)⟩

/-- Processing a concatenation of two inputs equals processing them one
after the other, carrying the `atBlankLine` state across. -/
theorem prefixTransform_append (pre : List Char) (b : Bool) (xs ys : List Char) :
    prefixTransform pre b (xs ++ ys) =
      ((prefixTransform pre b xs).1 ++
        (prefixTransform pre (prefixTransform pre b xs).2 ys).1,
       (prefixTransform pre (prefixTransform pre b xs).2 ys).2) := by
  induction xs generalizing b with
  | nil => simp [prefixTransform]
  | cons c cs ih => simp [prefixTransform, ih]

/-- The output of one `_transform` call, described line-wise: the first
piece is labelled only when the stream is at a line start, and all later
pieces (which each begin right after a newline) are labelled. -/
theorem prefixTransform_splitAfterNewline (pre s : List Char) (b : Bool) :
    (prefixTransform pre b s).1 =
      match splitAfterNewline s with
      | [] => ([] : List Char)
      | l :: ls => (if b then pre else []) ++ l ++ (ls.map fun l' => pre ++ l').flatten := by
  induction s generalizing b with
  | nil => simp [prefixTransform, splitAfterNewline]
  | cons c cs ih =>
    by_cases hc : isNewLine c
    · cases h : splitAfterNewline cs <;>
        simp [prefixTransform, splitAfterNewline, hc, ih, h]
    · cases h : splitAfterNewline cs <;>
        simp [prefixTransform, splitAfterNewline, hc, ih, h]

/-- Chunk-by-chunk processing computes exactly the single-chunk result. -/
theorem transformChunks_join (pre : List Char) (b : Bool) (chunks : List (List Char)) :
    transformChunks pre b chunks = prefixTransform pre b chunks.flatten := by
  induction chunks generalizing b with
  | nil => simp [transformChunks, prefixTransform]
  | cons ch rest ih => simp [transformChunks, ih, prefixTransform_append]

/-- C8: starting at a line start, the stream's output is exactly the input
with the fixed label inserted before every character that begins a line
(the stream's first character and each character following a newline) and
nowhere else — each line piece is emitted as `label ++ piece`; and the
transform is chunking-invariant: delivering the input in any sequence of
chunks produces the same concatenated output and final state as delivering
it whole. -/
theorem prefixTransform_lines_and_chunking :
    (∀ (pre s : List Char),
      (prefixTransform pre true s).1 =
        ((splitAfterNewline s).map fun l => pre ++ l).flatten) ∧
    (∀ (pre : List Char) (chunks : List (List Char)),
      transformChunks pre true chunks = prefixTransform pre true chunks.flatten) := by
  constructor
  · intro pre s
    rw [prefixTransform_splitAfterNewline]
    cases h : splitAfterNewline s <;> simp
  · intro pre chunks
    exact transformChunks_join pre true chunks

/-- A `peekChar` that reports end-of-file leaves the state unchanged, and
that state has an empty buffer and an exhausted cursor. -/
theorem peekChar_none (s s1 : ShellLexer) (h : peekChar s = (none, s1)) :
    s1 = s ∧ s.charBuffer = [] ∧ s.text.length ≤ s.textOffset := by
  cases hb : s.charBuffer with
  | cons c rest => simp [peekChar, hb] at h
  | nil =>
    by_cases hlt : s.textOffset < s.text.length
    · simp [peekChar, hb, readChar, hlt] at h
    · simp [peekChar, hb, readChar, hlt] at h
      exact ⟨h.symm, rfl, by omega⟩

/-- Whenever `lexLoop` returns an `EndOfFile` token, the returned state has
an empty character buffer, an exhausted text cursor, and the token carries
no payload. -/
theorem lexLoop_eof_state (fuel : Nat) (esc blank : Bool) (s s' : ShellLexer) (v : Option String)
    (h : lexLoop fuel esc blank s = .ok ({ type := .EndOfFile, value := v }, s')) :
    s'.charBuffer = [] ∧ s'.text.length ≤ s'.textOffset ∧ v = none := by
  induction fuel generalizing esc blank s with
  | zero => simp [lexLoop] at h
  | succ fuel ih =>
    rw [lexLoop] at h
    rcases hp : peekChar s with ⟨oc, s1⟩
    rw [hp] at h
    match oc with
    | none =>
      obtain ⟨he1, hb, ho⟩ := peekChar_none s s1 hp
      cases esc with
      | true => simp at h
      | false =>
        simp at h
        obtain ⟨hv, hs⟩ := h
        subst hs
        subst he1
        exact ⟨hb, ho, hv.symm⟩
    | some ch =>
      simp only at h
      split_ifs at h with h1 h2 h3 h4 h5
      · exact ih _ _ _ h
      · exact ih _ _ _ h
      · simp at h
      · simp at h
      · rcases hq : peekChar ((getChar s1).2) with ⟨oc2, s3⟩
        rw [hq] at h
        match oc2 with
        | none => simp at h
        | some c1 =>
          simp only at h
          split_ifs at h
          simp at h
      · split at h <;> simp at h
      · split at h <;> simp at h
      · simp at h
      · simp at h

/-- At a state with an empty buffer and exhausted cursor, `lex` returns an
`EndOfFile` token and leaves the state exactly as it was. -/
theorem lex_atEnd (s : ShellLexer) (hb : s.charBuffer = [])
    (ho : s.text.length ≤ s.textOffset) :
    lex s = .ok ({ type := .EndOfFile }, s) := by
  have hlt : ¬ s.textOffset < s.text.length := by omega
  have hf : lexFuel s = 0 + 1 := by
    simp [lexFuel, hb]
    omega
  rw [lex, hf, lexLoop]
  simp [peekChar, hb, readChar, hlt]

/-- C7: lexer end-of-input idempotence — once a `lex()` call has returned
an `EndOfFile` token, the next call (from the returned state) again
returns `EndOfFile`, raises no error, and returns the state unchanged
(same text offset and character buffer); hence every later call does
too. -/
theorem lex_endOfFile_idempotent (s s' : ShellLexer) (tok : ShellToken)
    (h : lex s = .ok (tok, s')) (he : tok.type = .EndOfFile) :
    lex s' = .ok ({ type := .EndOfFile }, s') := by
  obtain ⟨ty, v⟩ := tok
  simp only at he
  subst he
  obtain ⟨hb, ho, _⟩ := lexLoop_eof_state (lexFuel s) false false s s' v h
  exact lex_atEnd s' hb ho

theorem lex_endOfFile_idempotent_witness :
    lex (ShellLexer.init "".data) =
      .ok ({ type := .EndOfFile }, ShellLexer.init "".data) ∧
    ({ type := .EndOfFile } : ShellToken).type = .EndOfFile ∧
    lex (ShellLexer.init "".data) =
      .ok ({ type := .EndOfFile }, ShellLexer.init "".data) :=
  ⟨rfl, rfl, lex_endOfFile_idempotent (ShellLexer.init "".data)
    (ShellLexer.init "".data) { type := .EndOfFile } rfl rfl⟩

/-- Evaluating a command with arbitrary continuations is determined by
which continuation the command's evaluation eventually invokes (and the
spawn trace at that point). -/
theorem visit_run (spawnF : SpawnFn) (builtins : ShellBuiltins) (env : ProcessEnvironment)
    (command : ShellCommand) :
    ∀ {α : Type} (next exitK : Int → SpawnLog → Except ShellError α) (log : SpawnLog),
      visit spawnF builtins env command next exitK log =
        match kvisit spawnF builtins env command log with
        | .ok (.next c l) => next c l
        | .ok (.exit c l) => exitK c l
        | .error e => .error e := by
  induction command with
  | spawnCommand args =>
    intro α next exitK log
    simp only [visit, kvisit]
    cases hb : buildArgv env args with
    | error e => simp
    | ok argv =>
      simp only []
      cases hbl : builtins (argvHead argv) with
      | none => simp
      | some b => cases hbo : b argv <;> simp [hbo]
  | andCommand l r ihl ihr =>
    intro α next exitK log
    have hL : kvisit spawnF builtins env (.andCommand l r) log =
        visit spawnF builtins env l
          (fun c lg => if c ≠ 0 then Except.ok (.exit c lg)
            else kvisit spawnF builtins env r lg)
          (fun c lg => Except.ok (.exit c lg)) log := rfl
    have hV : visit spawnF builtins env (.andCommand l r) next exitK log =
        visit spawnF builtins env l
          (fun c lg => if c ≠ 0 then exitK c lg
            else visit spawnF builtins env r next exitK lg)
          exitK log := rfl
    rw [hV, hL, ihl, ihl]
    cases hkl : kvisit spawnF builtins env l log with
    | error e => rfl
    | ok res =>
      cases res with
      | next c lg =>
        by_cases hc : c = 0
        · simp only [hc, ne_eq, not_true_eq_false, if_false, ite_false]
          exact ihr next exitK lg
        · simp [hc]
      | exit c lg => rfl
  | orCommand l r ihl ihr =>
    intro α next exitK log
    have hL : kvisit spawnF builtins env (.orCommand l r) log =
        visit spawnF builtins env l
          (fun c lg => if c = 0 then Except.ok (.exit 0 lg)
            else kvisit spawnF builtins env r lg)
          (fun c lg => Except.ok (.exit c lg)) log := rfl
    have hV : visit spawnF builtins env (.orCommand l r) next exitK log =
        visit spawnF builtins env l
          (fun c lg => if c = 0 then exitK 0 lg
            else visit spawnF builtins env r next exitK lg)
          exitK log := rfl
    rw [hV, hL, ihl, ihl]
    cases hkl : kvisit spawnF builtins env l log with
    | error e => rfl
    | ok res =>
      cases res with
      | next c lg =>
        by_cases hc : c = 0
        · simp [hc]
        · simp only [if_neg hc]
          exact ihr next exitK lg
      | exit c lg => rfl
  | notCommand c ih =>
    intro α next exitK log
    rfl

/-- The `AndCommand` case through the continuation lens: a non-zero left
code invokes the outer `exit`; a zero left code hands `right` the original
continuations. -/
theorem kvisit_andCommand (spawnF : SpawnFn) (builtins : ShellBuiltins)
    (env : ProcessEnvironment) (left right : ShellCommand) (log : SpawnLog) :
    kvisit spawnF builtins env (.andCommand left right) log =
      match kvisit spawnF builtins env left log with
      | .ok (.next c l) =>
        if c ≠ 0 then .ok (.exit c l) else kvisit spawnF builtins env right l
      | .ok (.exit c l) => .ok (.exit c l)
      | .error e => .error e := by
  have h1 : kvisit spawnF builtins env (.andCommand left right) log =
      visit spawnF builtins env left
        (fun c l => if c ≠ 0 then Except.ok (.exit c l)
          else kvisit spawnF builtins env right l)
        (fun c l => Except.ok (.exit c l)) log := rfl
  rw [h1, visit_run]

/-- The `OrCommand` case through the continuation lens: a zero left code
invokes the outer `exit` with 0; otherwise `right` gets the original
continuations. -/
theorem kvisit_orCommand (spawnF : SpawnFn) (builtins : ShellBuiltins)
    (env : ProcessEnvironment) (left right : ShellCommand) (log : SpawnLog) :
    kvisit spawnF builtins env (.orCommand left right) log =
      match kvisit spawnF builtins env left log with
      | .ok (.next c l) =>
        if c = 0 then .ok (.exit 0 l) else kvisit spawnF builtins env right l
      | .ok (.exit c l) => .ok (.exit c l)
      | .error e => .error e := by
  have h1 : kvisit spawnF builtins env (.orCommand left right) log =
      visit spawnF builtins env left
        (fun c l => if c = 0 then Except.ok (.exit 0 l)
          else kvisit spawnF builtins env right l)
        (fun c l => Except.ok (.exit c l)) log := rfl
  rw [h1, visit_run]

/-- The top-level result is whatever code reaches either continuation
first, with the trace of spawned processes. -/
theorem evalVisit_run (spawnF : SpawnFn) (builtins : ShellBuiltins)
    (env : ProcessEnvironment) (command : ShellCommand) :
    evalVisit spawnF builtins env command =
      match kvisit spawnF builtins env command [] with
      | .ok (.next c l) => .ok (c, l)
      | .ok (.exit c l) => .ok (c, l)
      | .error e => .error e := by
  unfold evalVisit
  rw [visit_run]

/-- C1: for every `left && right`: if evaluating `left` hands its `next`
continuation a non-zero code `c`, the whole `AndCommand` invokes the
*outer* `exit` continuation with `c` — aborting the entire top-level
evaluation, not merely the local branch — and `right` is never evaluated
(the result and spawn trace are those of `left` alone, for every `right`);
if `left` hands `next` the code 0, `right` is evaluated with the original
`next`/`exit` continuations.  Concretely, `evalShellCommand
"false && never"` never spawns `never` and yields `false`'s non-zero exit
code. -/
theorem evalShellCommand_and_short_circuit :
    (∀ (spawnF : SpawnFn) (builtins : ShellBuiltins) (env : ProcessEnvironment)
        (left right : ShellCommand) (log log' : SpawnLog) (c : Int),
      kvisit spawnF builtins env left log = .ok (.next c log') →
        (c ≠ 0 →
          kvisit spawnF builtins env (.andCommand left right) log = .ok (.exit c log')) ∧
        (c = 0 →
          kvisit spawnF builtins env (.andCommand left right) log =
            kvisit spawnF builtins env right log')) ∧
    (∀ (spawnF : SpawnFn) (env : ProcessEnvironment) (c : Int),
      spawnF ["false"] = some c → c ≠ 0 →
        evalShellCommand "false && never" spawnF noExtraBuiltins false env =
          .ok (c, [["false"]])) := by
  constructor
  · intro spawnF builtins env left right log log' c h
    constructor
    · intro hc
      rw [kvisit_andCommand, h]
      simp [hc]
    · intro hc
      rw [kvisit_andCommand, h]
      simp [hc]
  · intro spawnF env c hsp hc
    have hstep : evalShellCommand "false && never" spawnF noExtraBuiltins false env =
        evalVisit spawnF (mergeBuiltins noExtraBuiltins false) env
          (.andCommand (.spawnCommand [[.textExpr "false"]])
            (.spawnCommand [[.textExpr "never"]])) := rfl
    have hL : kvisit spawnF (mergeBuiltins noExtraBuiltins false) env
        (.spawnCommand [[.textExpr "false"]]) [] = .ok (.next c [["false"]]) := by
      simp [kvisit, visit, buildArgv, buildArgvLoop, buildArgvExprs, evalShellExpr,
        shouldHoist, jsSplit, splitOnChar, argvHead, mergeBuiltins, noExtraBuiltins,
        defaultBuiltins, hsp, normalizeExitCode]
    rw [hstep, evalVisit_run, kvisit_andCommand, hL]
    simp [hc]

theorem evalShellCommand_and_short_circuit_witness :
    ((fun a => if a = ["false"] then some 1 else some 0 : SpawnFn) ["false"] = some 1) ∧
    (1 : Int) ≠ 0 ∧
    evalShellCommand "false && never" (fun a => if a = ["false"] then some 1 else some 0)
      noExtraBuiltins false (fun _ => none) = .ok (1, [["false"]]) :=
  ⟨rfl, by decide,
    evalShellCommand_and_short_circuit.2
      (fun a => if a = ["false"] then some 1 else some 0) (fun _ => none) 1 rfl (by decide)⟩

/-- C3: for every `left || right`: if evaluating `left` hands its `next`
continuation the code 0, the whole `OrCommand` invokes the *outer* `exit`
continuation with 0 — short-circuiting the rest of the evaluation — and
`right` is never evaluated (the result and trace are those of `left`
alone, for every `right`); otherwise `right` is evaluated with the
original `next`/`exit` continuations.  Concretely, `evalShellCommand
"true || never"` never spawns `never` and yields 0. -/
theorem evalShellCommand_or_short_circuit :
    (∀ (spawnF : SpawnFn) (builtins : ShellBuiltins) (env : ProcessEnvironment)
        (left right : ShellCommand) (log log' : SpawnLog) (c : Int),
      kvisit spawnF builtins env left log = .ok (.next c log') →
        (c = 0 →
          kvisit spawnF builtins env (.orCommand left right) log = .ok (.exit 0 log')) ∧
        (c ≠ 0 →
          kvisit spawnF builtins env (.orCommand left right) log =
            kvisit spawnF builtins env right log')) ∧
    (∀ (spawnF : SpawnFn) (env : ProcessEnvironment),
      spawnF ["true"] = some 0 →
        evalShellCommand "true || never" spawnF noExtraBuiltins false env =
          .ok (0, [["true"]])) := by
  constructor
  · intro spawnF builtins env left right log log' c h
    constructor
    · intro hc
      rw [kvisit_orCommand, h]
      simp [hc]
    · intro hc
      rw [kvisit_orCommand, h]
      simp [hc]
  · intro spawnF env hsp
    have hstep : evalShellCommand "true || never" spawnF noExtraBuiltins false env =
        evalVisit spawnF (mergeBuiltins noExtraBuiltins false) env
          (.orCommand (.spawnCommand [[.textExpr "true"]])
            (.spawnCommand [[.textExpr "never"]])) := rfl
    have hL : kvisit spawnF (mergeBuiltins noExtraBuiltins false) env
        (.spawnCommand [[.textExpr "true"]]) [] = .ok (.next 0 [["true"]]) := by
      simp [kvisit, visit, buildArgv, buildArgvLoop, buildArgvExprs, evalShellExpr,
        shouldHoist, jsSplit, splitOnChar, argvHead, mergeBuiltins, noExtraBuiltins,
        defaultBuiltins, hsp, normalizeExitCode]
    rw [hstep, evalVisit_run, kvisit_orCommand, hL]
    simp

theorem evalShellCommand_or_short_circuit_witness :
    ((fun a => if a = ["true"] then some 0 else some 7 : SpawnFn) ["true"] = some 0) ∧
    evalShellCommand "true || never" (fun a => if a = ["true"] then some 0 else some 7)
      noExtraBuiltins false (fun _ => none) = .ok (0, [["true"]]) :=
  ⟨rfl,
    evalShellCommand_or_short_circuit.2
      (fun a => if a = ["true"] then some 0 else some 7) (fun _ => none) rfl⟩

/-- `parseExpr` only ever builds `RefExpr` or `TextExpr` nodes. -/
theorem parseExpr_basic (s s' : ShellParserState) (e : ShellExpr)
    (h : parseExpr s = .ok (e, s')) : isBasicExpr e = true := by
  rw [parseExpr] at h
  cases hg : getToken s with
  | error err => simp only [hg] at h; exact Except.noConfusion h
  | ok ts =>
    obtain ⟨t0, s1⟩ := ts
    simp only [hg] at h
    split_ifs at h <;> simp at h <;> simp [← h.1, isBasicExpr]

/-- The `parseArg` loop only accumulates basic expressions. -/
theorem parseArgLoop_basic (fuel : Nat) :
    ∀ (acc : List ShellExpr) (s : ShellParserState) (arg : List ShellExpr)
      (s' : ShellParserState),
      parseArgLoop fuel acc s = .ok (arg, s') →
      acc.all isBasicExpr = true → arg.all isBasicExpr = true := by
  induction fuel with
  | zero => intro acc s arg s' h _; simp [parseArgLoop] at h
  | succ fuel ih =>
    intro acc s arg s' h hacc
    rw [parseArgLoop] at h
    cases hp : peekToken s with
    | error e => simp only [hp] at h; exact Except.noConfusion h
    | ok ts =>
      obtain ⟨t0, s1⟩ := ts
      simp only [hp] at h
      split_ifs at h
      · simp at h
        simp [← h.1, hacc]
      · cases he : parseExpr s1 with
        | error err => simp only [he] at h; exact Except.noConfusion h
        | ok es =>
          obtain ⟨e, s2⟩ := es
          simp only [he] at h
          refine ih _ _ _ _ h ?_
          simp [List.all_append, hacc, parseExpr_basic _ _ _ he]

/-- The `parseCommandPrimitive` loop produces a `SpawnCommand` whose args
hold only basic expressions. -/
theorem parseCommandPrimitiveLoop_basic (fuel : Nat) :
    ∀ (args : List (List ShellExpr)) (s : ShellParserState) (c : ShellCommand)
      (s' : ShellParserState),
      parseCommandPrimitiveLoop fuel args s = .ok (c, s') →
      (args.all fun arg => arg.all isBasicExpr) = true → isBasicCommand c = true := by
  induction fuel with
  | zero => intro args s c s' h _; simp [parseCommandPrimitiveLoop] at h
  | succ fuel ih =>
    intro args s c s' h hargs
    rw [parseCommandPrimitiveLoop] at h
    cases hp : peekToken s with
    | error e => simp only [hp] at h; exact Except.noConfusion h
    | ok ts =>
      obtain ⟨t0, s1⟩ := ts
      simp only [hp] at h
      split_ifs at h with h1
      · simp at h
        simp [← h.1, isBasicCommand, hargs]
      · cases ha : parseArg fuel s1 with
        | error err => simp only [ha] at h; exact Except.noConfusion h
        | ok as =>
          obtain ⟨arg, s2⟩ := as
          simp only [ha] at h
          have harg : arg.all isBasicExpr = true :=
            parseArgLoop_basic fuel [] s1 arg s2 ha rfl
          cases hq : peekToken s2 with
          | error err => simp only [hq] at h; exact Except.noConfusion h
          | ok ts1 =>
            obtain ⟨t1, s3⟩ := ts1
            simp only [hq] at h
            split_ifs at h
            · simp at h
              simp only [← h.1, isBasicCommand]
              simp [List.all_append, hargs, harg]
            · cases hx : expectToken .Blank s3 with
              | error err => simp only [hx] at h; exact Except.noConfusion h
              | ok s4 =>
                simp only [hx] at h
                refine ih _ _ _ _ h ?_
                simp [List.all_append, hargs, harg]

/-- `mkBinaryCommand` preserves basic shape. -/
theorem mkBinaryCommand_basic (tokenType : ShellTokenType) (l r : ShellCommand)
    (hl : isBasicCommand l = true) (hr : isBasicCommand r = true) :
    isBasicCommand (mkBinaryCommand tokenType l r) = true := by
  by_cases h : tokenType = .AmpAmp <;> simp [mkBinaryCommand, h, isBasicCommand, hl, hr]

/-- Both precedence-climbing loops preserve basic shape: from a basic
left-hand side they only ever build `AndCommand`/`OrCommand` nodes over
basic primitives. -/
theorem parseCommandOperators_basic (fuel : Nat) :
    (∀ (lhs : ShellCommand) (minPrec : Nat) (s : ShellParserState) (c : ShellCommand)
        (s' : ShellParserState),
      parseCommandOperators fuel lhs minPrec s = .ok (c, s') →
      isBasicCommand lhs = true → isBasicCommand c = true) ∧
    (∀ (rhs : ShellCommand) (fixed : Nat) (s : ShellParserState) (c : ShellCommand)
        (s' : ShellParserState),
      parseCommandInnerLoop fuel rhs fixed s = .ok (c, s') →
      isBasicCommand rhs = true → isBasicCommand c = true) := by
  induction fuel with
  | zero =>
    constructor
    · intro lhs minPrec s c s' h _
      simp [parseCommandOperators] at h
    · intro rhs fixed s c s' h _
      simp [parseCommandInnerLoop] at h
  | succ fuel ih =>
    obtain ⟨ihO, ihI⟩ := ih
    constructor
    · intro lhs minPrec s c s' h hlhs
      rw [parseCommandOperators] at h
      cases hp : peekToken s with
      | error e => simp only [hp] at h; exact Except.noConfusion h
      | ok ts =>
        obtain ⟨look, s1⟩ := ts
        simp only [hp] at h
        split_ifs at h with h1 h2
        · simp at h
          simp [← h.1, hlhs]
        · simp at h
          simp [← h.1, hlhs]
        · cases hg : getToken s1 with
          | error e => simp only [hg] at h; exact Except.noConfusion h
          | ok gs =>
            obtain ⟨t2, s2⟩ := gs
            simp only [hg] at h
            cases hq : peekToken s2 with
            | error e => simp only [hq] at h; exact Except.noConfusion h
            | ok ts2 =>
              obtain ⟨tb, s3⟩ := ts2
              simp only [hq] at h
              by_cases htb : tb.type = ShellTokenType.Blank
              · rw [if_pos htb] at h
                cases hg2 : getToken s3 with
                | error e => simp only [hg2] at h; exact Except.noConfusion h
                | ok gs2 =>
                  obtain ⟨t3, s4⟩ := gs2
                  simp only [hg2] at h
                  cases hpr : parseCommandPrimitive fuel s4 with
                  | error e => simp only [hpr] at h; exact Except.noConfusion h
                  | ok rs =>
                    obtain ⟨rhs, s6⟩ := rs
                    simp only [hpr] at h
                    cases hin : parseCommandInnerLoop fuel rhs (getPrecedence look.type) s6 with
                    | error e => simp only [hin] at h; exact Except.noConfusion h
                    | ok rs2 =>
                      obtain ⟨rhs2, s7⟩ := rs2
                      simp only [hin] at h
                      have hrhs : isBasicCommand rhs = true :=
                        parseCommandPrimitiveLoop_basic fuel [] s4 rhs s6 hpr rfl
                      have hrhs2 : isBasicCommand rhs2 = true :=
                        ihI rhs (getPrecedence look.type) s6 rhs2 s7 hin hrhs
                      exact ihO _ _ _ _ _ h
                        (mkBinaryCommand_basic look.type lhs rhs2 hlhs hrhs2)
              · rw [if_neg htb] at h
                cases hpr : parseCommandPrimitive fuel s3 with
                | error e => simp only [hpr] at h; exact Except.noConfusion h
                | ok rs =>
                  obtain ⟨rhs, s6⟩ := rs
                  simp only [hpr] at h
                  cases hin : parseCommandInnerLoop fuel rhs (getPrecedence look.type) s6 with
                  | error e => simp only [hin] at h; exact Except.noConfusion h
                  | ok rs2 =>
                    obtain ⟨rhs2, s7⟩ := rs2
                    simp only [hin] at h
                    have hrhs : isBasicCommand rhs = true :=
                      parseCommandPrimitiveLoop_basic fuel [] s3 rhs s6 hpr rfl
                    have hrhs2 : isBasicCommand rhs2 = true :=
                      ihI rhs (getPrecedence look.type) s6 rhs2 s7 hin hrhs
                    exact ihO _ _ _ _ _ h
                      (mkBinaryCommand_basic look.type lhs rhs2 hlhs hrhs2)
    · intro rhs fixed s c s' h hrhs
      rw [parseCommandInnerLoop] at h
      cases hp : peekToken s with
      | error e => simp only [hp] at h; exact Except.noConfusion h
      | ok ts =>
        obtain ⟨look, s1⟩ := ts
        simp only [hp] at h
        split_ifs at h with h1 h2
        · simp at h
          simp [← h.1, hrhs]
        · simp at h
          simp [← h.1, hrhs]
        · cases ho : parseCommandOperators fuel rhs (getPrecedence look.type) s1 with
          | error e => simp only [ho] at h; exact Except.noConfusion h
          | ok rs =>
            obtain ⟨rhs2, s2⟩ := rs
            simp only [ho] at h
            exact ihI _ _ _ _ _ h (ihO _ _ _ _ _ ho hrhs)

/-- Every command that `parseShellCommand` returns is basic. -/
theorem parseShellCommand_basic (input : String) (c : ShellCommand)
    (h : parseShellCommand input = .ok c) : isBasicCommand c = true := by
  rw [parseShellCommand] at h
  cases hc : parseCommand (parseFuel input) (ShellParserState.init input.data) with
  | error e => simp only [hc] at h; exact Except.noConfusion h
  | ok cs =>
    obtain ⟨c0, sf⟩ := cs
    simp only [hc] at h
    have hcc : c0 = c := by simpa using h
    subst hcc
    rw [parseCommand] at hc
    cases hi : parseCommandInternal (parseFuel input) (ShellParserState.init input.data) with
    | error e => simp only [hi] at hc; exact Except.noConfusion hc
    | ok is =>
      obtain ⟨c1, s1⟩ := is
      simp only [hi] at hc
      cases hx : expectToken .EndOfFile s1 with
      | error e => simp only [hx] at hc; exact Except.noConfusion hc
      | ok s2 =>
        simp only [hx] at hc
        have hc1 : c1 = c0 := by
          have := hc
          simp only [Except.ok.injEq, Prod.mk.injEq] at this
          exact this.1
        subst hc1
        rw [parseCommandInternal] at hi
        cases hpr : parseCommandPrimitive (parseFuel input) (ShellParserState.init input.data) with
        | error e => simp only [hpr] at hi; exact Except.noConfusion hi
        | ok ps =>
          obtain ⟨p0, s3⟩ := ps
          simp only [hpr] at hi
          have hp0 : isBasicCommand p0 = true :=
            parseCommandPrimitiveLoop_basic (parseFuel input) [] _ p0 s3 hpr rfl
          exact (parseCommandOperators_basic (parseFuel input)).1 p0 0 s3 c1 s1 hi hp0

/-- C10: for every input string, any AST returned by `parseShellCommand`
contains only `SpawnCommand`, `AndCommand` and `OrCommand` nodes with
`TextExpr` and `RefExpr` leaves — never a `StringExpr`,
`TemplateStringExpr` or `NotCommand`; consequently every expression in a
parsed command is hoistable (the non-hoistable expansion branch is
unreachable), and no parsed command contains the `NotCommand` evaluation
path. -/
theorem parseShellCommand_only_basic_nodes :
    (∀ (input : String) (c : ShellCommand),
      parseShellCommand input = .ok c → isBasicCommand c = true) ∧
    (∀ e : ShellExpr, isBasicExpr e = true → shouldHoist e = true) ∧
    (∀ cmd : ShellCommand, isBasicCommand (.notCommand cmd) = false) := by
  refine ⟨parseShellCommand_basic, ?_, fun _ => rfl⟩
  intro e he
  cases e <;> simp_all [isBasicExpr, shouldHoist]

theorem parseShellCommand_only_basic_nodes_witness :
    parseShellCommand "cp $HOME/my-app /app" =
      .ok (.spawnCommand
        [[.textExpr "cp"], [.refExpr "HOME", .textExpr "/my-app"], [.textExpr "/app"]]) ∧
    isBasicCommand (.spawnCommand
        [[.textExpr "cp"], [.refExpr "HOME", .textExpr "/my-app"], [.textExpr "/app"]]) = true :=
  ⟨rfl, parseShellCommand_only_basic_nodes.1 "cp $HOME/my-app /app" _ rfl⟩
